import Mathlib

/-!
Shallow embedding of the local-similarity / array-processing core of the
`roses2020` notebook (`src/unit5/array_network_roses-exercise.ipynb`).

Numpy arrays of floats are modelled as `List ℝ`; numpy/Python operations
(`np.mean`, `np.std`, `np.correlate(·, ·, 'full')`, `np.max`, Python slicing
with clamping and negative-index wrap-around, `int()` truncation, float `%`)
are modelled faithfully on real numbers.  `np.max` of an empty array raises,
so it is modelled as an `Option`-valued maximum.
-/

/-- Python clamping of a (possibly negative) slice index against a list of
length `m`: a negative index counts from the end, and the result is clamped
into `[0, m]`. -/
def pyIndex (m : ℕ) (i : ℤ) : ℕ :=
  if i < 0 then ((m : ℤ) + i).toNat else min i.toNat m

/-- Python slice `xs[start:stop]` with full Python semantics for negative and
out-of-range indices. -/
def pySlice {α : Type} (xs : List α) (start stop : ℤ) : List α :=
  (xs.take (pyIndex xs.length stop)).drop (pyIndex xs.length start)

/-- Indexing with an integer index that yields `0` outside the array, used to
express `np.correlate`'s implicit zero padding. -/
def getZ (a : List ℝ) (i : ℤ) : ℝ :=
  if 0 ≤ i then a.getD i.toNat 0 else 0

/-- `np.mean`. -/
noncomputable def mean (a : List ℝ) : ℝ := a.sum / a.length

/-- The population variance `np.var` (the radicand of `np.std`). -/
noncomputable def npVar (a : List ℝ) : ℝ :=
  (a.map (fun x => (x - mean a) ^ 2)).sum / a.length

/-- `np.std` (population standard deviation). -/
noncomputable def npStd (a : List ℝ) : ℝ := Real.sqrt (npVar a)

/-- The cross-correlation value at integer lag `k`:
`Σ_n a (n + k) * b n` with zero padding outside `a`, summing over the indices
of `b` (numpy's `c_{av}[k] = Σ_n a[n+k] * conj(v[n])`, real-valued here). -/
noncomputable def corrLag (a v : List ℝ) (k : ℤ) : ℝ :=
  ∑ n ∈ Finset.range v.length, getZ a ((n : ℤ) + k) * v.getD n 0

/-- `np.correlate(a, v, 'full')`: all lags from `-(len v - 1)` to `len a - 1`,
laid out as a list of length `len a + len v - 1`; position `j` holds lag
`j - (len v - 1)`. -/
noncomputable def npCorrelateFull (a v : List ℝ) : List ℝ :=
  (List.range (a.length + v.length - 1)).map
    (fun (j : ℕ) => corrLag a v ((j : ℤ) - ((v.length : ℤ) - 1)))

/-- `np.max` on a 1-D array: `none` on the empty array (numpy raises), the
fold of binary `max` otherwise. -/
def listMax {α : Type} [LinearOrder α] : List α → Option α
  | [] => none
  | x :: xs => some (xs.foldl max x)

/-- First operand normalization inside `norm_xcorr`:
`a = (a - np.mean(a)) / (np.std(a) * len(a))`.
Lean's real division is total (`x / 0 = 0`), so this real-valued form is
faithful only away from the zero-variance path; the degenerate path, where
numpy's `0.0 / 0.0` produces NaN, is modelled separately by `fnormalize_a`
below and is what settles claim C5. -/
noncomputable def normalize_a (a : List ℝ) : List ℝ :=
  a.map (fun x => (x - mean a) / (npStd a * (a.length : ℝ)))

/-- Second operand normalization inside `norm_xcorr`:
`b = (b - np.mean(b)) / (np.std(b))`.
As with `normalize_a`, total real division is faithful only away from the
zero-variance path; the NaN path is modelled by `fnormalize_b` below. -/
noncomputable def normalize_b (b : List ℝ) : List ℝ :=
  b.map (fun x => (x - mean b) / npStd b)

/-- `norm_xcorr(a, b, max_lag)` from the notebook:
normalize the operands (asymmetrically), take the full cross-correlation,
slice it as `xcorr[i-max_lag : i+max_lag]` around the zero-lag position
`i = len(a) - 1`, and return `np.max` of the slice (`none` when the slice is
empty, where numpy raises). -/
noncomputable def norm_xcorr (a b : List ℝ) (max_lag : ℕ) : Option ℝ :=
  listMax (pySlice (npCorrelateFull (normalize_a a) (normalize_b b))
    (((a.length : ℤ) - 1) - (max_lag : ℤ)) (((a.length : ℤ) - 1) + (max_lag : ℤ)))

/-- Modelled from the spec's words (for comparison with `norm_xcorr`): the
maximum of the normalized cross-correlation over the symmetric lag range
`[-max_lag, +max_lag]`, BOTH endpoints included. -/
noncomputable def norm_xcorr_claimed (a b : List ℝ) (max_lag : ℕ) : Option ℝ :=
  listMax ((List.range (2 * max_lag + 1)).map
    (fun (t : ℕ) => corrLag (normalize_a a) (normalize_b b) ((t : ℤ) - (max_lag : ℤ))))

/-- Python slice `d[l : l+nwin]` of a data row (both indices nonnegative). -/
def seg (d : List ℝ) (l nwin : ℕ) : List ℝ := (d.drop l).take nwin

/-- The window-start indices visited by the notebook's loop
`l = 0; while l < nsamp - nsamp_win: ...; l = l + step`.
The guard `0 < step` records that the Python loop never terminates for a zero
step; every execution in the notebook has `step = int(nsamp_win/4) = 25 > 0`. -/
def windowStarts (bound step : ℕ) (l : ℕ) : List ℕ :=
  if h : 0 < step ∧ l < bound then l :: windowStarts bound step (l + step) else []
termination_by bound - l
decreasing_by omega

/-- One iteration of the similarity loop body: the mean of the two
neighbor correlations `(c1 + c2) / 2` for the window starting at `l`
(propagating a failed `np.max` as a failure). -/
noncomputable def windowSimilarity (d0 d1 d2 : List ℝ) (nwin imax l : ℕ) : Option ℝ :=
  (norm_xcorr (seg d0 l nwin) (seg d1 l nwin) imax).bind (fun c1 =>
    (norm_xcorr (seg d0 l nwin) (seg d2 l nwin) imax).map (fun c2 => (c1 + c2) / 2))

/-- The list `C` built by the sliding similarity loop for one reference sensor
with data row `d0` and neighbor rows `d1`, `d2`. -/
noncomputable def C_trace (d0 d1 d2 : List ℝ) (nsamp nwin imax : ℕ) : List (Option ℝ) :=
  (windowStarts (nsamp - nwin) (nwin / 4) 0).map (windowSimilarity d0 d1 d2 nwin imax)

/-- The list `L` of window-center indices built by the sliding similarity
loop: `l + int(nsamp_win/2)` per window. -/
def L_trace (nsamp nwin : ℕ) : List ℕ :=
  (windowStarts (nsamp - nwin) (nwin / 4) 0).map (fun l => l + nwin / 2)

/-- The network stack `np.array(C_stack).sum(axis=0) / ix.shape[0]`: the
column-wise sum of the per-sensor rows (each of length `M`), divided by the
number of sensors. -/
noncomputable def C_stack_net (rows : List (List ℝ)) (M : ℕ) : List ℝ :=
  (List.range M).map (fun j => (rows.map (fun r => r.getD j 0)).sum / (rows.length : ℝ))

/-- Python `int()` on a float: truncation toward zero. -/
noncomputable def pyInt (x : ℝ) : ℤ := if 0 ≤ x then ⌊x⌋ else ⌈x⌉

/-- `max_dist = np.max(distances)/1000.` given the value `dmax_m` of
`np.max(distances)` in meters (the distance matrix itself comes from the
external nearest-neighbor library). -/
noncomputable def max_dist (dmax_m : ℝ) : ℝ := dmax_m / 1000

/-- `v_min = 3.5` (slowest wave velocity, km/s). -/
noncomputable def v_min : ℝ := 3.5

/-- `t_max = max_dist/v_min` (maximum inter-station travel time, s). -/
noncomputable def t_max (dmax_m : ℝ) : ℝ := max_dist dmax_m / v_min

/-- `i_max = int(t_max/delta)` (maximum necessary shift in samples). -/
noncomputable def i_max (dmax_m delta : ℝ) : ℤ := pyInt (t_max dmax_m / delta)

/-- Python float modulo `x % m` for `m > 0`: `x - m * ⌊x/m⌋`. -/
noncomputable def pyMod (x m : ℝ) : ℝ := x - m * ⌊x / m⌋

/-- `B = slid_fk[:,3] % 360.`: reduction of the raw FK backazimuth column
modulo 360 degrees. -/
noncomputable def backazimuths (col : List ℝ) : List ℝ :=
  col.map (fun x => pyMod x 360)

/-! ### IEEE-style values for the zero-variance degenerate path (claim C5)

Lean's total real division sends `0 / 0` to `0`, so the real-valued
embedding above cannot express what numpy does on a silent (zero-variance)
window: there `0.0 / 0.0` is NaN, and NaN then propagates through every
later operation of the pipeline.  The following value type keeps NaN and
signed infinity explicit; the finite case carries an exact real (rounding is
not modelled, which is irrelevant for NaN contamination: once a NaN appears
every later result is NaN regardless of rounding).  The operation tables
follow IEEE 754, with the one unexercised subtlety that the sign of zero is
not tracked (zero is `+0`). -/

inductive Fl : Type
  | fin : ℝ → Fl
  | inf : Bool → Fl
  | nan : Fl

/-- IEEE negation. -/
def fneg : Fl → Fl
  | .fin x => .fin (-x)
  | .inf s => .inf (!s)
  | .nan => .nan

/-- IEEE addition: NaN propagates; opposite infinities give NaN. -/
def fadd : Fl → Fl → Fl
  | .nan, _ => .nan
  | _, .nan => .nan
  | .fin x, .fin y => .fin (x + y)
  | .fin _, .inf s => .inf s
  | .inf s, .fin _ => .inf s
  | .inf s, .inf t => if s = t then .inf s else .nan

/-- IEEE subtraction: `x - y = x + (-y)`. -/
def fsub (x y : Fl) : Fl := fadd x (fneg y)

/-- IEEE multiplication: NaN propagates; `0 * ∞` is NaN. -/
noncomputable def fmul : Fl → Fl → Fl
  | .nan, _ => .nan
  | _, .nan => .nan
  | .fin x, .fin y => .fin (x * y)
  | .fin x, .inf s => if x = 0 then .nan else .inf (if 0 < x then s else !s)
  | .inf s, .fin y => if y = 0 then .nan else .inf (if 0 < y then s else !s)
  | .inf s, .inf t => .inf (s = t)

/-- IEEE division: NaN propagates; `0/0` and `∞/∞` are NaN; finite nonzero
over zero is signed infinity; finite over infinity is zero. -/
noncomputable def fdiv : Fl → Fl → Fl
  | .nan, _ => .nan
  | _, .nan => .nan
  | .fin x, .fin y =>
      if y = 0 then (if x = 0 then .nan else if 0 < x then .inf true else .inf false)
      else .fin (x / y)
  | .fin _, .inf _ => .fin 0
  | .inf s, .fin y => if y = 0 then .inf s else .inf (if 0 < y then s else !s)
  | .inf _, .inf _ => .nan

/-- IEEE square root: NaN for negative finite arguments and for `-∞`. -/
noncomputable def fsqrt : Fl → Fl
  | .fin x => if 0 ≤ x then .fin (Real.sqrt x) else .nan
  | .inf s => if s then .inf true else .nan
  | .nan => .nan

/-- One step of numpy's `maximum.reduce`: `np.max` propagates NaN. -/
noncomputable def fmax : Fl → Fl → Fl
  | .nan, _ => .nan
  | _, .nan => .nan
  | .fin x, .fin y => .fin (max x y)
  | .fin x, .inf s => if s then .inf true else .fin x
  | .inf s, .fin y => if s then .inf true else .fin y
  | .inf s, .inf t => .inf (s || t)

/-- Summation of a float array. -/
def fsum (l : List Fl) : Fl := l.foldr fadd (.fin 0)

/-- `np.mean` on floats. -/
noncomputable def fmean (a : List Fl) : Fl := fdiv (fsum a) (.fin (a.length : ℝ))

/-- `np.std` on floats: the square root of the mean squared deviation. -/
noncomputable def fstd (a : List Fl) : Fl :=
  fsqrt (fmean (a.map (fun x => fmul (fsub x (fmean a)) (fsub x (fmean a)))))

/-- The first-operand normalization of `norm_xcorr` on floats:
`(a - np.mean(a)) / (np.std(a) * len(a))` with NaN kept explicit. -/
noncomputable def fnormalize_a (a : List Fl) : List Fl :=
  a.map (fun x => fdiv (fsub x (fmean a)) (fmul (fstd a) (.fin (a.length : ℝ))))

/-- The second-operand normalization of `norm_xcorr` on floats:
`(b - np.mean(b)) / np.std(b)` with NaN kept explicit. -/
noncomputable def fnormalize_b (b : List Fl) : List Fl :=
  b.map (fun x => fdiv (fsub x (fmean b)) (fstd b))

/-- Integer-indexed access with zero padding, on floats. -/
def fgetZ (a : List Fl) (i : ℤ) : Fl :=
  if 0 ≤ i then a.getD i.toNat (.fin 0) else .fin 0

/-- The lag-`k` cross-correlation value on floats. -/
noncomputable def fcorrLag (a v : List Fl) (k : ℤ) : Fl :=
  fsum ((List.range v.length).map
    (fun (n : ℕ) => fmul (fgetZ a ((n : ℤ) + k)) (v.getD n (.fin 0))))

/-- `np.correlate(a, v, 'full')` on floats. -/
noncomputable def fcorrelateFull (a v : List Fl) : List Fl :=
  (List.range (a.length + v.length - 1)).map
    (fun (j : ℕ) => fcorrLag a v ((j : ℤ) - ((v.length : ℤ) - 1)))

/-- `np.max` on floats: `none` on the empty array, NaN-propagating otherwise. -/
noncomputable def flistMax : List Fl → Option Fl
  | [] => none
  | x :: xs => some (xs.foldl fmax x)

/-- `norm_xcorr` on floats: the same code as `norm_xcorr`, in the
NaN-preserving embedding. -/
noncomputable def fnorm_xcorr (a b : List Fl) (max_lag : ℕ) : Option Fl :=
  flistMax (pySlice (fcorrelateFull (fnormalize_a a) (fnormalize_b b))
    (((a.length : ℤ) - 1) - (max_lag : ℤ)) (((a.length : ℤ) - 1) + (max_lag : ℤ)))

/-! ### Basic lemmas about the modelled numpy primitives -/

lemma foldl_max_mem {α : Type} [LinearOrder α] :
    ∀ (xs : List α) (x : α), xs.foldl max x ∈ x :: xs := by
  intro xs
  induction xs with
  | nil => intro x; simp
  | cons y ys ih =>
    intro x
    have h := ih (max x y)
    simp only [List.foldl_cons]
    rcases List.mem_cons.mp h with h1 | h1
    · rcases max_choice x y with hm | hm
      · rw [h1, hm]; exact List.mem_cons_self _ _
      · rw [h1, hm]; exact List.mem_cons_of_mem _ (List.mem_cons_self _ _)
    · exact List.mem_cons_of_mem _ (List.mem_cons_of_mem _ h1)

lemma le_foldl_max {α : Type} [LinearOrder α] :
    ∀ (xs : List α) (x a : α), a ∈ x :: xs → a ≤ xs.foldl max x := by
  intro xs
  induction xs with
  | nil => intro x a ha; simp at ha; simp [ha]
  | cons y ys ih =>
    intro x a ha
    simp only [List.foldl_cons]
    rcases List.mem_cons.mp ha with h1 | h1
    · exact le_trans (h1 ▸ le_max_left x y) (ih (max x y) _ (List.mem_cons_self _ _))
    · rcases List.mem_cons.mp h1 with h2 | h2
      · exact le_trans (h2 ▸ le_max_right x y) (ih (max x y) _ (List.mem_cons_self _ _))
      · exact ih (max x y) a (List.mem_cons_of_mem _ h2)

lemma listMax_mem {α : Type} [LinearOrder α] {l : List α} {m : α}
    (h : listMax l = some m) : m ∈ l := by
  cases l with
  | nil => simp [listMax] at h
  | cons x xs =>
    simp only [listMax, Option.some.injEq] at h
    exact h ▸ foldl_max_mem xs x

lemma le_listMax {α : Type} [LinearOrder α] {l : List α} {m : α}
    (h : listMax l = some m) : ∀ a ∈ l, a ≤ m := by
  cases l with
  | nil => simp
  | cons x xs =>
    simp only [listMax, Option.some.injEq] at h
    intro a ha
    exact h ▸ le_foldl_max xs x a ha

lemma listMax_eq_some {α : Type} [LinearOrder α] {l : List α} {m : α}
    (hmem : m ∈ l) (hub : ∀ a ∈ l, a ≤ m) : listMax l = some m := by
  cases l with
  | nil => simp at hmem
  | cons x xs =>
    simp only [listMax, Option.some.injEq]
    have h1 : xs.foldl max x ≤ m := hub _ (foldl_max_mem xs x)
    have h2 : m ≤ xs.foldl max x := le_foldl_max xs x m hmem
    exact le_antisymm h1 h2

lemma getD_map_lt {α β : Type} (f : α → β) (xs : List α) (j : ℕ)
    (h : j < xs.length) (d : β) (d0 : α) : (xs.map f).getD j d = f (xs.getD j d0) := by
  rw [List.getD_eq_getElem?_getD, List.getElem?_map,
    List.getElem?_eq_getElem h, List.getD_eq_getElem?_getD,
    List.getElem?_eq_getElem h]
  rfl

/-- The sum of a list as a `Finset.range` sum of its `getD` entries. -/
lemma sum_getD_range : ∀ (l : List ℝ), ∑ i ∈ Finset.range l.length, l.getD i 0 = l.sum := by
  intro l
  induction l with
  | nil => simp
  | cons x xs ih =>
    rw [List.length_cons, Finset.sum_range_succ']
    simp only [List.getD_cons_succ, List.getD_cons_zero, List.sum_cons]
    rw [ih]; ring

lemma sum_getD_sq_range : ∀ (l : List ℝ),
    ∑ i ∈ Finset.range l.length, (l.getD i 0) ^ 2 = (l.map (fun x => x ^ 2)).sum := by
  intro l
  induction l with
  | nil => simp
  | cons x xs ih =>
    rw [List.length_cons, Finset.sum_range_succ']
    simp only [List.getD_cons_succ, List.getD_cons_zero, List.map_cons, List.sum_cons]
    rw [ih]; ring

/-- Slicing `range m |>.map f` between in-range bounds re-indexes the map. -/
lemma slice_map_range {β : Type} (f : ℕ → β) (m s e : ℕ) (hs : s ≤ e) (he : e ≤ m) :
    (((List.range m).map f).take e).drop s = (List.range (e - s)).map (fun t => f (s + t)) := by
  obtain ⟨d, rfl⟩ : ∃ d, e = s + d := ⟨e - s, by omega⟩
  rw [← List.map_take, List.take_range, Nat.min_eq_left he, Nat.add_sub_cancel_left,
    ← List.map_drop, List.range_add, List.drop_left' (by simp), List.map_map]
  rfl

/-- What the slice `xcorr[i-max_lag : i+max_lag]` really selects, for
`1 ≤ max_lag ≤ len - 1`: the lags from `-max_lag` up to `max_lag - 1`
(the upper endpoint `+max_lag` is NOT included). -/
lemma norm_xcorr_lag_range (a b : List ℝ) (L : ℕ) (hab : b.length = a.length)
    (h1 : 1 ≤ L) (h2 : L ≤ a.length - 1) :
    norm_xcorr a b L =
      listMax ((List.range (2 * L)).map
        (fun (t : ℕ) => corrLag (normalize_a a) (normalize_b b) ((t : ℤ) - (L : ℤ)))) := by
  have hn2 : 2 ≤ a.length := by omega
  have hA : (normalize_a a).length = a.length := by simp [normalize_a]
  have hB : (normalize_b b).length = a.length := by simp [normalize_b, hab]
  rw [norm_xcorr, pySlice, npCorrelateFull, hA, hB]
  simp only [List.length_drop, List.length_take, List.length_map, List.length_range]
  have hstart : pyIndex (a.length + a.length - 1) (((a.length : ℤ) - 1) - (L : ℤ))
      = a.length - 1 - L := by
    rw [pyIndex, if_neg (by omega)]; omega
  have hstop : pyIndex (a.length + a.length - 1) (((a.length : ℤ) - 1) + (L : ℤ))
      = a.length - 1 + L := by
    rw [pyIndex, if_neg (by omega)]; omega
  rw [hstart, hstop,
    slice_map_range _ _ _ _ (by omega) (by omega)]
  have hd : a.length - 1 + L - (a.length - 1 - L) = 2 * L := by omega
  rw [hd]
  refine congrArg listMax (List.map_congr_left (fun t _ => ?_))
  congr 1
  omega

/-! ### Zero-mean unit-variance sequences -/

lemma mean_of_sum_zero {a : List ℝ} (h : a.sum = 0) : mean a = 0 := by
  rw [mean, h, zero_div]

lemma npStd_of_unit {a : List ℝ} (h0 : a.sum = 0)
    (h2 : (a.map (fun x => x ^ 2)).sum = (a.length : ℝ)) (hn : a.length ≠ 0) :
    npStd a = 1 := by
  have hv : npVar a = 1 := by
    rw [npVar]
    simp only [mean_of_sum_zero h0, sub_zero]
    rw [h2, div_self (Nat.cast_ne_zero.mpr hn)]
  rw [npStd, hv, Real.sqrt_one]

lemma normalize_b_of_unit {a : List ℝ} (h0 : a.sum = 0)
    (h2 : (a.map (fun x => x ^ 2)).sum = (a.length : ℝ)) (hn : a.length ≠ 0) :
    normalize_b a = a := by
  rw [normalize_b]
  simp only [mean_of_sum_zero h0, npStd_of_unit h0 h2 hn, sub_zero, div_one]
  exact List.map_id' a

lemma normalize_a_of_unit {a : List ℝ} (h0 : a.sum = 0)
    (h2 : (a.map (fun x => x ^ 2)).sum = (a.length : ℝ)) (hn : a.length ≠ 0) :
    normalize_a a = a.map (fun x => x / (a.length : ℝ)) := by
  rw [normalize_a]
  simp only [mean_of_sum_zero h0, npStd_of_unit h0 h2 hn, sub_zero, one_mul]

lemma getZ_map_div (a : List ℝ) (c : ℝ) (i : ℤ) :
    getZ (a.map (fun x => x / c)) i = getZ a i / c := by
  rw [getZ, getZ]
  split
  · by_cases hi : i.toNat < a.length
    · rw [getD_map_lt _ _ _ hi _ 0]
    · rw [List.getD_eq_default _ _ (by simpa using le_of_not_lt hi),
        List.getD_eq_default _ _ (le_of_not_lt hi), zero_div]
  · rw [zero_div]

lemma corrLag_norm_self {a : List ℝ} (h0 : a.sum = 0)
    (h2 : (a.map (fun x => x ^ 2)).sum = (a.length : ℝ)) (hn : a.length ≠ 0) (k : ℤ) :
    corrLag (normalize_a a) (normalize_b a) k
      = (∑ m ∈ Finset.range a.length, getZ a ((m : ℤ) + k) * a.getD m 0) / (a.length : ℝ) := by
  rw [normalize_b_of_unit h0 h2 hn, normalize_a_of_unit h0 h2 hn, corrLag]
  conv_rhs => rw [Finset.sum_div]
  refine Finset.sum_congr rfl (fun m _ => ?_)
  rw [getZ_map_div]
  ring

/-- The sum of squares of the zero-padded shift of `a` is at most the sum of
squares of `a` itself. -/
lemma shifted_sq_sum_le (a : List ℝ) (k : ℤ) (N : ℕ) :
    ∑ m ∈ Finset.range N, (getZ a ((m : ℤ) + k)) ^ 2
      ≤ ∑ j ∈ Finset.range a.length, (a.getD j 0) ^ 2 := by
  classical
  set s := (Finset.range N).filter
    (fun (m : ℕ) => 0 ≤ (m : ℤ) + k ∧ (m : ℤ) + k < (a.length : ℤ)) with hs
  have hinj : ∀ x ∈ s, ∀ y ∈ s,
      ((x : ℤ) + k).toNat = ((y : ℤ) + k).toNat → x = y := by
    intro x hx y hy hxy
    rw [hs] at hx hy
    simp only [Finset.mem_filter] at hx hy
    omega
  have step3 : s.image (fun (m : ℕ) => ((m : ℤ) + k).toNat) ⊆ Finset.range a.length := by
    intro j hj
    obtain ⟨m, hm, rfl⟩ := Finset.mem_image.mp hj
    rw [hs] at hm
    simp only [Finset.mem_filter] at hm
    rw [Finset.mem_range]
    omega
  calc ∑ m ∈ Finset.range N, (getZ a ((m : ℤ) + k)) ^ 2
      = ∑ m ∈ s, (a.getD ((m : ℤ) + k).toNat 0) ^ 2 := by
        rw [hs, Finset.sum_filter]
        refine Finset.sum_congr rfl (fun m _ => ?_)
        by_cases hc : 0 ≤ (m : ℤ) + k ∧ (m : ℤ) + k < (a.length : ℤ)
        · rw [if_pos hc, getZ, if_pos hc.1]
        · rw [if_neg hc, getZ]
          by_cases hpos : 0 ≤ (m : ℤ) + k
          · rw [if_pos hpos, List.getD_eq_default _ _ (by omega)]
            norm_num
          · rw [if_neg hpos]
            norm_num
    _ = ∑ j ∈ s.image (fun (m : ℕ) => ((m : ℤ) + k).toNat), (a.getD j 0) ^ 2 :=
        (@Finset.sum_image ℕ ℝ ℕ (fun j => (a.getD j 0) ^ 2) _ _ s
          (fun (m : ℕ) => ((m : ℤ) + k).toNat) hinj).symm
    _ ≤ ∑ j ∈ Finset.range a.length, (a.getD j 0) ^ 2 :=
        Finset.sum_le_sum_of_subset_of_nonneg step3 (fun j _ _ => sq_nonneg _)

lemma sum_sq_getD_eq {a : List ℝ}
    (h2 : (a.map (fun x => x ^ 2)).sum = (a.length : ℝ)) :
    ∑ j ∈ Finset.range a.length, (a.getD j 0) ^ 2 = (a.length : ℝ) := by
  rw [sum_getD_sq_range, h2]

/-- Cauchy–Schwarz: every lag of the self-correlation of a zero-mean
unit-variance sequence is at most `1`. -/
lemma corrLag_self_le_one {a : List ℝ} (h0 : a.sum = 0)
    (h2 : (a.map (fun x => x ^ 2)).sum = (a.length : ℝ)) (hn : a.length ≠ 0) (k : ℤ) :
    corrLag (normalize_a a) (normalize_b a) k ≤ 1 := by
  have hpos : (0 : ℝ) < (a.length : ℝ) := by exact_mod_cast Nat.pos_of_ne_zero hn
  rw [corrLag_norm_self h0 h2 hn, div_le_one hpos]
  have hcs := Finset.sum_mul_sq_le_sq_mul_sq (Finset.range a.length)
    (fun m => getZ a ((m : ℤ) + k)) (fun m => a.getD m 0)
  have hS : ∑ m ∈ Finset.range a.length, (getZ a ((m : ℤ) + k)) ^ 2 ≤ (a.length : ℝ) :=
    le_trans (shifted_sq_sum_le a k _) (le_of_eq (sum_sq_getD_eq h2))
  have hT : ∑ m ∈ Finset.range a.length, (a.getD m 0) ^ 2 = (a.length : ℝ) :=
    sum_sq_getD_eq h2
  have hSnn : (0 : ℝ) ≤ ∑ m ∈ Finset.range a.length, (getZ a ((m : ℤ) + k)) ^ 2 :=
    Finset.sum_nonneg (fun m _ => sq_nonneg _)
  nlinarith [hcs, hS, hT, hSnn, hpos,
    sq_nonneg ((∑ m ∈ Finset.range a.length, getZ a ((m : ℤ) + k) * a.getD m 0)
      - (a.length : ℝ)),
    sq_nonneg ((∑ m ∈ Finset.range a.length, getZ a ((m : ℤ) + k) * a.getD m 0)
      + (a.length : ℝ))]

/-- The zero-lag self-correlation of a zero-mean unit-variance sequence is
exactly `1`. -/
lemma corrLag_self_zero {a : List ℝ} (h0 : a.sum = 0)
    (h2 : (a.map (fun x => x ^ 2)).sum = (a.length : ℝ)) (hn : a.length ≠ 0) :
    corrLag (normalize_a a) (normalize_b a) 0 = 1 := by
  rw [corrLag_norm_self h0 h2 hn]
  have hz : ∑ m ∈ Finset.range a.length, getZ a ((m : ℤ) + 0) * a.getD m 0
      = ∑ j ∈ Finset.range a.length, (a.getD j 0) ^ 2 := by
    refine Finset.sum_congr rfl (fun m _ => ?_)
    simp [getZ]
    ring
  rw [hz, sum_sq_getD_eq h2, div_self (Nat.cast_ne_zero.mpr hn)]

/-- For zero-mean unit-variance data and an in-range `max_lag`, the
self-correlation `norm_xcorr a a max_lag` attains exactly `1`. -/
lemma norm_xcorr_self {a : List ℝ} (L : ℕ) (h0 : a.sum = 0)
    (h2 : (a.map (fun x => x ^ 2)).sum = (a.length : ℝ))
    (hL1 : 1 ≤ L) (hL2 : L ≤ a.length - 1) :
    norm_xcorr a a L = some 1 := by
  have hn : a.length ≠ 0 := by omega
  rw [norm_xcorr_lag_range a a L rfl hL1 hL2]
  refine listMax_eq_some ?_ ?_
  · refine List.mem_map.mpr ⟨L, List.mem_range.mpr (by omega), ?_⟩
    rw [sub_self]
    exact corrLag_self_zero h0 h2 hn
  · intro x hx
    obtain ⟨t, _, rfl⟩ := List.mem_map.mp hx
    exact corrLag_self_le_one h0 h2 hn _

/-! ### Degenerate slice: max_lag = 0 -/

lemma pySlice_eq_nil_same {α : Type} (xs : List α) (s : ℤ) : pySlice xs s s = [] := by
  rw [pySlice, List.drop_eq_nil_iff]
  exact List.length_take_le _ _

/-- With `max_lag = 0` the slice `xcorr[i-0:i+0]` is empty, so `np.max`
raises (modelled as `none`), for every input. -/
lemma norm_xcorr_at_lag_zero (a b : List ℝ) : norm_xcorr a b 0 = none := by
  rw [norm_xcorr]
  simp only [Nat.cast_zero, sub_zero, add_zero]
  rw [pySlice_eq_nil_same]
  rfl

/-! ### Claim C1 -/

/-- Claim C1 (amended): for `1 ≤ max_lag ≤ len - 1`, `norm_xcorr` computes the
full cross-correlation of the normalized sequences, restricts it to the lags
in the HALF-OPEN range `[-max_lag, +max_lag)` — the lag `-max_lag` included,
the lag `+max_lag` excluded — and returns the maximum value in that range.
(For `max_lag = 0` the slice is empty and `np.max` raises, and for
`max_lag > len - 1` the Python slice start wraps around, so neither end of the
claimed range is delivered there.) -/
theorem claim_C1 (a b : List ℝ) (L : ℕ) (hab : b.length = a.length)
    (h1 : 1 ≤ L) (h2 : L ≤ a.length - 1) :
    norm_xcorr a b L =
      listMax ((List.range (2 * L)).map
        (fun (t : ℕ) => corrLag (normalize_a a) (normalize_b b) ((t : ℤ) - (L : ℤ)))) :=
  norm_xcorr_lag_range a b L hab h1 h2

/-- Claim C1 witness: the amended statement instantiated at concrete data. -/
theorem claim_C1_witness :
    1 ≤ ([1, -1] : List ℝ).length - 1 ∧
    norm_xcorr [1, -1] [1, -1] 1 =
      listMax ((List.range (2 * 1)).map
        (fun (t : ℕ) => corrLag (normalize_a [1, -1]) (normalize_b [1, -1])
          ((t : ℤ) - ((1 : ℕ) : ℤ)))) :=
  ⟨by norm_num, claim_C1 [1, -1] [1, -1] 1 rfl (le_refl 1) (by norm_num)⟩

/-- Claim C1 counterexample: on `a = [1,1,-1,-1]`, `b = [1,-1,-1,1]` with
`max_lag = 1` the code returns `0` (the maximum over lags `{-1, 0}`), while
the maximum over the claimed closed range `[-1, +1]` is `3/4`, attained at the
excluded lag `+1`.  So `norm_xcorr` does not return the maximum over
`[-max_lag, +max_lag]` with both endpoints included. -/
theorem claim_C1_counterexample :
    norm_xcorr [1, 1, -1, -1] [1, -1, -1, 1] 1 = some 0 ∧
    norm_xcorr_claimed [1, 1, -1, -1] [1, -1, -1, 1] 1 = some (3 / 4) ∧
    norm_xcorr [1, 1, -1, -1] [1, -1, -1, 1] 1 ≠
      norm_xcorr_claimed [1, 1, -1, -1] [1, -1, -1, 1] 1 := by
  have hA0 : ([1, 1, -1, -1] : List ℝ).sum = 0 := by norm_num
  have hA2 : (([1, 1, -1, -1] : List ℝ).map (fun x => x ^ 2)).sum
      = (([1, 1, -1, -1] : List ℝ).length : ℝ) := by norm_num
  have hB0 : ([1, -1, -1, 1] : List ℝ).sum = 0 := by norm_num
  have hB2 : (([1, -1, -1, 1] : List ℝ).map (fun x => x ^ 2)).sum
      = (([1, -1, -1, 1] : List ℝ).length : ℝ) := by norm_num
  have eA : normalize_a [1, 1, -1, -1] = [1 / 4, 1 / 4, -1 / 4, -1 / 4] := by
    rw [normalize_a_of_unit hA0 hA2 (by norm_num)]
    norm_num
  have eB : normalize_b [1, -1, -1, 1] = [1, -1, -1, 1] :=
    normalize_b_of_unit hB0 hB2 (by norm_num)
  have ecm1 : corrLag (normalize_a [1, 1, -1, -1]) (normalize_b [1, -1, -1, 1]) (-1)
      = -3 / 4 := by
    rw [eA, eB, corrLag]
    norm_num [Finset.sum_range_succ, getZ, show Int.toNat 0 = 0 from rfl,
      show Int.toNat 1 = 1 from rfl, show Int.toNat 2 = 2 from rfl,
      show Int.toNat 3 = 3 from rfl]
  have ec0 : corrLag (normalize_a [1, 1, -1, -1]) (normalize_b [1, -1, -1, 1]) 0
      = 0 := by
    rw [eA, eB, corrLag]
    norm_num [Finset.sum_range_succ, getZ, show Int.toNat 0 = 0 from rfl,
      show Int.toNat 1 = 1 from rfl, show Int.toNat 2 = 2 from rfl,
      show Int.toNat 3 = 3 from rfl]
  have ec1 : corrLag (normalize_a [1, 1, -1, -1]) (normalize_b [1, -1, -1, 1]) 1
      = 3 / 4 := by
    rw [eA, eB, corrLag]
    norm_num [Finset.sum_range_succ, getZ, show Int.toNat 0 = 0 from rfl,
      show Int.toNat 1 = 1 from rfl, show Int.toNat 2 = 2 from rfl,
      show Int.toNat 3 = 3 from rfl]
  have hcode : norm_xcorr [1, 1, -1, -1] [1, -1, -1, 1] 1 = some 0 := by
    rw [norm_xcorr_lag_range [1, 1, -1, -1] [1, -1, -1, 1] 1 (by norm_num)
      (le_refl 1) (by norm_num)]
    have hr : List.range (2 * 1) = [0, 1] := rfl
    rw [hr]
    simp only [List.map_cons, List.map_nil]
    norm_num [ecm1, ec0]
    rw [listMax]
    simp only [List.foldl_cons, List.foldl_nil]
    norm_num [max_def]
  have hclaim : norm_xcorr_claimed [1, 1, -1, -1] [1, -1, -1, 1] 1 = some (3 / 4) := by
    rw [norm_xcorr_claimed]
    have hr : List.range (2 * 1 + 1) = [0, 1, 2] := rfl
    rw [hr]
    simp only [List.map_cons, List.map_nil]
    norm_num [ecm1, ec0, ec1]
    rw [listMax]
    simp only [List.foldl_cons, List.foldl_nil]
    norm_num [max_def]
  refine ⟨hcode, hclaim, ?_⟩
  rw [hcode, hclaim]
  norm_num

/-! ### Claim C2 -/

/-- Claim C2: `norm_xcorr` normalizes each operand by subtracting its mean,
then divides the first operand `a` by its standard deviation times its
length while the second operand `b` is divided by its standard deviation
alone; the maximum is taken of the sliced cross-correlation of exactly these
two asymmetrically normalized sequences. -/
theorem claim_C2 (a b : List ℝ) (L : ℕ) :
    norm_xcorr a b L = listMax (pySlice (npCorrelateFull (normalize_a a) (normalize_b b))
      (((a.length : ℤ) - 1) - (L : ℤ)) (((a.length : ℤ) - 1) + (L : ℤ))) ∧
    (∀ i, i < a.length → (normalize_a a).getD i 0
        = (a.getD i 0 - mean a) / (npStd a * (a.length : ℝ))) ∧
    (∀ i, i < b.length → (normalize_b b).getD i 0
        = (b.getD i 0 - mean b) / npStd b) := by
  refine ⟨rfl, fun i hi => ?_, fun i hi => ?_⟩
  · rw [normalize_a, getD_map_lt _ _ _ hi _ 0]
  · rw [normalize_b, getD_map_lt _ _ _ hi _ 0]

/-- Claim C2 witness: the normalization formulas instantiated at concrete
data and index `0`. -/
theorem claim_C2_witness :
    0 < ([1, 2] : List ℝ).length ∧ 0 < ([3, 4] : List ℝ).length ∧
    (normalize_a [1, 2]).getD 0 0
      = (([1, 2] : List ℝ).getD 0 0 - mean [1, 2])
        / (npStd [1, 2] * (([1, 2] : List ℝ).length : ℝ)) ∧
    (normalize_b [3, 4]).getD 0 0
      = (([3, 4] : List ℝ).getD 0 0 - mean [3, 4]) / npStd [3, 4] :=
  ⟨by norm_num, by norm_num,
    (claim_C2 [1, 2] [3, 4] 1).2.1 0 (by norm_num),
    (claim_C2 [1, 2] [3, 4] 1).2.2 0 (by norm_num)⟩

/-! ### Claim C3 -/

/-- Claim C3 (amended): for every zero-mean unit-variance sequence `a` and
every `max_lag` with `1 ≤ max_lag ≤ len a - 1`, `norm_xcorr a a max_lag`
returns the maximum over the searched lag range and that maximum equals `1.0`
(lag `0` is searched and attains `1`; Cauchy–Schwarz bounds every other lag).
At `max_lag = 0`, however, the code fails on `np.max` of an empty slice
instead of returning `1.0`. -/
theorem claim_C3 (a : List ℝ) (L : ℕ) (h0 : a.sum = 0)
    (h2 : (a.map (fun x => x ^ 2)).sum = (a.length : ℝ))
    (hL1 : 1 ≤ L) (hL2 : L ≤ a.length - 1) :
    norm_xcorr a a L = some 1 :=
  norm_xcorr_self L h0 h2 hL1 hL2

/-- Claim C3 witness: a concrete zero-mean unit-variance sequence with an
in-range `max_lag` correlates with itself to exactly `1`. -/
theorem claim_C3_witness :
    ([1, -1] : List ℝ).sum = 0 ∧
    (([1, -1] : List ℝ).map (fun x => x ^ 2)).sum = (([1, -1] : List ℝ).length : ℝ) ∧
    norm_xcorr [1, -1] [1, -1] 1 = some 1 :=
  ⟨by norm_num, by norm_num,
    claim_C3 [1, -1] 1 (by norm_num) (by norm_num) (le_refl 1) (by norm_num)⟩

/-- Claim C3 counterexample: at `max_lag = 0` — which the claim includes —
the slice `xcorr[i-0:i+0]` is empty, so `np.max` raises (modelled as `none`)
even for a zero-mean unit-variance sequence; `1.0` is not returned. -/
theorem claim_C3_counterexample :
    ([1, -1] : List ℝ).sum = 0 ∧
    (([1, -1] : List ℝ).map (fun x => x ^ 2)).sum = (([1, -1] : List ℝ).length : ℝ) ∧
    norm_xcorr [1, -1] [1, -1] 0 = none :=
  ⟨by norm_num, by norm_num, norm_xcorr_at_lag_zero _ _⟩

/-! ### Claim C5 -/

lemma fadd_nan_left (c : Fl) : fadd Fl.nan c = Fl.nan := by
  cases c <;> rfl

lemma fadd_nan_right (c : Fl) : fadd c Fl.nan = Fl.nan := by
  cases c <;> rfl

/-- Claim C5: the claim (and the spec's documented DegenerateSignalError
policy) says a zero-variance window yields the defined sentinel similarity
`0`, with a NaN, if produced, treated as zero downstream.  The code has no
such handling: in the NaN-preserving embedding, the silent window `[5, 5]`
against `[1, -1]` with `max_lag = 1` makes the normalization divide `0.0` by
`0.0`, and `norm_xcorr` returns NaN — a value, so no fatal fault, but NaN,
not the sentinel `0` — and the downstream per-window average `(c1+c2)/2.`
keeps NaN whichever operand carried it, so NaN reaches the SimilarityTrace
and the network stack untreated. -/
theorem claim_C5 :
    fnorm_xcorr [Fl.fin 5, Fl.fin 5] [Fl.fin 1, Fl.fin (-1)] 1 = some Fl.nan ∧
    (∀ c : Fl, fdiv (fadd Fl.nan c) (Fl.fin 2) = Fl.nan) ∧
    (∀ c : Fl, fdiv (fadd c Fl.nan) (Fl.fin 2) = Fl.nan) ∧
    Fl.nan ≠ Fl.fin 0 := by
  have h1 : fnormalize_a [Fl.fin 5, Fl.fin 5] = [Fl.nan, Fl.nan] := by
    norm_num [fnormalize_a, fmean, fsum, fstd, fadd, fneg, fsub, fmul, fdiv, fsqrt,
      Real.sqrt_zero]
  have h2 : fnormalize_b [Fl.fin 1, Fl.fin (-1)] = [Fl.fin 1, Fl.fin (-1)] := by
    norm_num [fnormalize_b, fmean, fsum, fstd, fadd, fneg, fsub, fmul, fdiv, fsqrt,
      Real.sqrt_one]
  have h3 : fcorrelateFull [Fl.nan, Fl.nan] [Fl.fin 1, Fl.fin (-1)]
      = [Fl.nan, Fl.nan, Fl.nan] := by
    norm_num [fcorrelateFull, fcorrLag, fgetZ, fsum, fadd, fmul,
      show List.range 3 = [0, 1, 2] from rfl, show List.range 2 = [0, 1] from rfl,
      show Int.toNat 0 = 0 from rfl, show Int.toNat 1 = 1 from rfl,
      show Int.toNat 2 = 2 from rfl]
  have h4 : fnorm_xcorr [Fl.fin 5, Fl.fin 5] [Fl.fin 1, Fl.fin (-1)] 1 = some Fl.nan := by
    rw [fnorm_xcorr, h1, h2, h3]
    norm_num [pySlice, pyIndex, flistMax, fmax,
      show Int.toNat 0 = 0 from rfl, show Int.toNat 2 = 2 from rfl]
  refine ⟨h4, fun c => ?_, fun c => ?_, fun h => Fl.noConfusion h⟩
  · rw [fadd_nan_left]
    rfl
  · rw [fadd_nan_right]
    rfl

/-! ### Claim C10 -/

lemma sum_map_affine (l : List ℝ) (c p : ℝ) :
    (l.map (fun x => c * x + p)).sum = c * l.sum + (l.length : ℝ) * p := by
  induction l with
  | nil => simp
  | cons y ys ih =>
    rw [List.map_cons, List.sum_cons, ih, List.sum_cons, List.length_cons]
    push_cast
    ring

lemma sum_map_mul_left (l : List ℝ) (c : ℝ) (f : ℝ → ℝ) :
    (l.map (fun x => c * f x)).sum = c * (l.map f).sum := by
  induction l with
  | nil => simp
  | cons y ys ih =>
    rw [List.map_cons, List.sum_cons, ih, List.map_cons, List.sum_cons]
    ring

lemma mean_affine {l : List ℝ} (hn : l.length ≠ 0) (c p : ℝ) :
    mean (l.map (fun x => c * x + p)) = c * mean l + p := by
  have h : ((l.length : ℝ)) ≠ 0 := Nat.cast_ne_zero.mpr hn
  rw [mean, mean, List.length_map, sum_map_affine]
  field_simp
  ring

lemma npVar_affine {l : List ℝ} (hn : l.length ≠ 0) (c p : ℝ) :
    npVar (l.map (fun x => c * x + p)) = c ^ 2 * npVar l := by
  rw [npVar, npVar, List.length_map, List.map_map, mean_affine hn c p]
  have hc : ((fun x => (x - (c * mean l + p)) ^ 2) ∘ (fun x => c * x + p))
      = fun x => c ^ 2 * (x - mean l) ^ 2 := by
    funext x
    simp only [Function.comp]
    ring
  rw [hc, sum_map_mul_left l (c ^ 2) (fun x => (x - mean l) ^ 2), mul_div_assoc]

lemma npStd_affine {l : List ℝ} (hn : l.length ≠ 0) {c : ℝ} (hc : 0 ≤ c) (p : ℝ) :
    npStd (l.map (fun x => c * x + p)) = c * npStd l := by
  rw [npStd, npStd, npVar_affine hn c p, Real.sqrt_mul (sq_nonneg c), Real.sqrt_sq hc]

lemma normalize_a_affine {a : List ℝ} (hn : a.length ≠ 0) {c : ℝ} (hc : 0 < c) (p : ℝ) :
    normalize_a (a.map (fun x => c * x + p)) = normalize_a a := by
  rw [normalize_a, normalize_a, List.map_map, List.length_map,
    mean_affine hn c p, npStd_affine hn hc.le p]
  refine List.map_congr_left (fun x _ => ?_)
  simp only [Function.comp]
  rw [show c * x + p - (c * mean a + p) = c * (x - mean a) by ring,
    show c * npStd a * (a.length : ℝ) = c * (npStd a * (a.length : ℝ)) by ring]
  exact mul_div_mul_left _ _ (ne_of_gt hc)

lemma normalize_b_affine {b : List ℝ} (hn : b.length ≠ 0) {d : ℝ} (hd : 0 < d) (q : ℝ) :
    normalize_b (b.map (fun x => d * x + q)) = normalize_b b := by
  rw [normalize_b, normalize_b, List.map_map, mean_affine hn d q, npStd_affine hn hd.le q]
  refine List.map_congr_left (fun x _ => ?_)
  simp only [Function.comp]
  rw [show d * x + q - (d * mean b + q) = d * (x - mean b) by ring]
  exact mul_div_mul_left _ _ (ne_of_gt hd)

lemma npVar_nil : npVar ([] : List ℝ) = 0 := by
  simp [npVar]

/-- Claim C10: `norm_xcorr` is invariant under positive affine rescaling of
either operand, because each operand is mean-subtracted and divided by its
own standard deviation. -/
theorem claim_C10 (a b : List ℝ) (L : ℕ) (c d p q : ℝ)
    (hab : b.length = a.length) (hc : 0 < c) (hd : 0 < d)
    (hva : npVar a ≠ 0) (hvb : npVar b ≠ 0) (hL : 1 ≤ L) :
    norm_xcorr (a.map (fun x => c * x + p)) (b.map (fun x => d * x + q)) L
      = norm_xcorr a b L := by
  have hna : a.length ≠ 0 := by
    intro h
    exact hva (by rw [List.length_eq_zero.mp h]; exact npVar_nil)
  have hnb : b.length ≠ 0 := by
    intro h
    exact hvb (by rw [List.length_eq_zero.mp h]; exact npVar_nil)
  rw [norm_xcorr, norm_xcorr, List.length_map,
    normalize_a_affine hna hc p, normalize_b_affine hnb hd q]

/-- Claim C10 witness: rescaling `[1, -1]` by `2·x + 1` and `3·x - 1` leaves
the normalized cross-correlation unchanged. -/
theorem claim_C10_witness :
    npVar [1, -1] ≠ 0 ∧
    norm_xcorr (([1, -1] : List ℝ).map (fun x => 2 * x + 1))
        (([1, -1] : List ℝ).map (fun x => 3 * x + -1)) 1
      = norm_xcorr [1, -1] [1, -1] 1 := by
  have hv : npVar ([1, -1] : List ℝ) ≠ 0 := by norm_num [npVar, mean]
  exact ⟨hv, claim_C10 [1, -1] [1, -1] 1 2 3 1 (-1) (by norm_num) (by norm_num)
    (by norm_num) hv hv (le_refl 1)⟩

/-! ### Claim C4 -/

lemma windowStarts_length_aux (bound step : ℕ) (hs : 0 < step) :
    ∀ f l, bound - l ≤ f →
      (windowStarts bound step l).length
        = if l < bound then (bound - l - 1) / step + 1 else 0 := by
  intro f
  induction f with
  | zero =>
    intro l hle
    have hnl : ¬ l < bound := by omega
    rw [windowStarts, dif_neg (fun hh => hnl hh.2)]
    simp [hnl]
  | succ f ih =>
    intro l hle
    rw [windowStarts]
    by_cases hl : l < bound
    · rw [dif_pos ⟨hs, hl⟩, List.length_cons, ih (l + step) (by omega), if_pos hl]
      by_cases h2 : l + step < bound
      · rw [if_pos h2]
        have he : bound - l - 1 = bound - (l + step) - 1 + step := by omega
        rw [he, Nat.add_div_right _ hs]
      · rw [if_neg h2]
        have hz : (bound - l - 1) / step = 0 := Nat.div_eq_of_lt (by omega)
        rw [hz]
    · rw [dif_neg (fun hh => hl hh.2)]
      simp [hl]

/-- Closed form for the number of loop iterations: the loop guard is the
STRICT `l < bound`, so the count is `(bound - l - 1) / step + 1`, not
`(bound - l) / step + 1`. -/
lemma windowStarts_length (bound step : ℕ) (hs : 0 < step) (l : ℕ) :
    (windowStarts bound step l).length
      = if l < bound then (bound - l - 1) / step + 1 else 0 :=
  windowStarts_length_aux bound step hs (bound - l) l (le_refl _)

/-- Claim C4 (amended): with a positive step `nwin / 4` and `nwin < nsamp`,
the sliding similarity loop produces per sensor a trace of length
`(nsamp - nwin - 1) / (nwin / 4) + 1` — NOT `(nsamp - nwin) / (nwin / 4) + 1`:
the strict loop guard `l < nsamp - nsamp_win` drops the window that starts
exactly at `nsamp - nsamp_win`.  For the example (1000 samples, 100-sample
windows, step 25) this gives 36 entries, not 37. -/
theorem claim_C4 (d0 d1 d2 : List ℝ) (nsamp nwin imax : ℕ)
    (hstep : 0 < nwin / 4) (hlt : nwin < nsamp) :
    (C_trace d0 d1 d2 nsamp nwin imax).length
      = (nsamp - nwin - 1) / (nwin / 4) + 1 ∧
    (L_trace nsamp nwin).length = (nsamp - nwin - 1) / (nwin / 4) + 1 := by
  constructor
  · rw [C_trace, List.length_map, windowStarts_length _ _ hstep, if_pos (by omega),
      Nat.sub_zero]
  · rw [L_trace, List.length_map, windowStarts_length _ _ hstep, if_pos (by omega),
      Nat.sub_zero]

/-- Claim C4 witness: the amended count at the example parameters. -/
theorem claim_C4_witness :
    0 < 100 / 4 ∧ 100 < 1000 ∧
    (C_trace [] [] [] 1000 100 7).length = (1000 - 100 - 1) / (100 / 4) + 1 :=
  ⟨by norm_num, by norm_num,
    (claim_C4 [] [] [] 1000 100 7 (by norm_num) (by norm_num)).1⟩

/-- Claim C4 counterexample: at the claim's own example parameters
(1000-sample records, 100-sample windows, step 25) the trace has 36 entries,
while the claimed formula `floor((1000 - 100)/25) + 1` gives 37. -/
theorem claim_C4_counterexample :
    (C_trace [] [] [] 1000 100 10).length = 36 ∧ (1000 - 100) / (100 / 4) + 1 = 37 := by
  constructor
  · rw [C_trace, List.length_map, windowStarts_length _ _ (by norm_num),
      if_pos (by norm_num)]
  · norm_num

/-! ### Claim C6 -/

/-- Claim C6: for per-sensor similarity traces of a common length `M`
(identical windowing parameters), the network stack has that same length and
each entry is the arithmetic mean — column sum divided by the number of
sensors — of the corresponding per-sensor entries. -/
theorem claim_C6 (rows : List (List ℝ)) (M : ℕ)
    (hrows : ∀ r ∈ rows, r.length = M) :
    (C_stack_net rows M).length = M ∧
    (∀ r ∈ rows, r.length = (C_stack_net rows M).length) ∧
    ∀ j, j < M → (C_stack_net rows M).getD j 0
      = (rows.map (fun r => r.getD j 0)).sum / (rows.length : ℝ) := by
  have hlen : (C_stack_net rows M).length = M := by
    rw [C_stack_net, List.length_map, List.length_range]
  refine ⟨hlen, fun r hr => by rw [hlen]; exact hrows r hr, fun j hj => ?_⟩
  rw [C_stack_net, getD_map_lt _ _ _ (by rwa [List.length_range]) _ 0]
  have hidx : (List.range M).getD j 0 = j := by
    rw [List.getD_eq_getElem _ _ (by rwa [List.length_range]), List.getElem_range]
  rw [hidx]

/-- Claim C6 witness: the stack of `[[1,2],[3,4]]` evaluated at entry `0`. -/
theorem claim_C6_witness :
    (∀ r ∈ [[(1 : ℝ), 2], [3, 4]], r.length = 2) ∧
    (C_stack_net [[(1 : ℝ), 2], [3, 4]] 2).getD 0 0
      = (([[(1 : ℝ), 2], [3, 4]] : List (List ℝ)).map (fun r => r.getD 0 0)).sum
        / (([[(1 : ℝ), 2], [3, 4]] : List (List ℝ)).length : ℝ) := by
  have hr : ∀ r ∈ [[(1 : ℝ), 2], [3, 4]], r.length = 2 := by simp
  exact ⟨hr, (claim_C6 [[(1 : ℝ), 2], [3, 4]] 2 hr).2.2 0 (by norm_num)⟩

/-! ### Claim C7 -/

/-- Claim C7: the value appended for the `j`-th window is the arithmetic mean
`(c1 + c2) / 2` of the `k = 2` neighbor cross-correlations of that window,
and the index appended is the window start plus half the window length. -/
theorem claim_C7 (d0 d1 d2 : List ℝ) (nsamp nwin imax j : ℕ) (c1 c2 : ℝ)
    (hj : j < (windowStarts (nsamp - nwin) (nwin / 4) 0).length)
    (h1 : norm_xcorr (seg d0 ((windowStarts (nsamp - nwin) (nwin / 4) 0).getD j 0) nwin)
        (seg d1 ((windowStarts (nsamp - nwin) (nwin / 4) 0).getD j 0) nwin) imax = some c1)
    (h2 : norm_xcorr (seg d0 ((windowStarts (nsamp - nwin) (nwin / 4) 0).getD j 0) nwin)
        (seg d2 ((windowStarts (nsamp - nwin) (nwin / 4) 0).getD j 0) nwin) imax = some c2) :
    (C_trace d0 d1 d2 nsamp nwin imax).getD j none = some ((c1 + c2) / 2) ∧
    (L_trace nsamp nwin).getD j 0
      = (windowStarts (nsamp - nwin) (nwin / 4) 0).getD j 0 + nwin / 2 := by
  constructor
  · rw [C_trace, getD_map_lt _ _ _ hj _ 0, windowSimilarity, h1, h2]
    rfl
  · rw [L_trace, getD_map_lt _ _ _ hj _ 0]

/-- Claim C7 witness: with 6 samples, 4-sample windows, step 1, `max_lag` 1
and identical zero-mean unit-variance rows, both window correlations are `1`
and the first trace entry is `(1 + 1)/2` at center index `0 + 2`. -/
theorem claim_C7_witness :
    0 < (windowStarts (6 - 4) (4 / 4) 0).length ∧
    norm_xcorr (seg [1, -1, 1, -1, 1, -1] ((windowStarts (6 - 4) (4 / 4) 0).getD 0 0) 4)
        (seg [1, -1, 1, -1, 1, -1] ((windowStarts (6 - 4) (4 / 4) 0).getD 0 0) 4) 1
      = some 1 ∧
    (C_trace [1, -1, 1, -1, 1, -1] [1, -1, 1, -1, 1, -1] [1, -1, 1, -1, 1, -1] 6 4 1).getD 0 none
      = some ((1 + 1) / 2) ∧
    (L_trace 6 4).getD 0 0 = (windowStarts (6 - 4) (4 / 4) 0).getD 0 0 + 4 / 2 := by
  have hws : windowStarts (6 - 4) (4 / 4) 0 = [0, 1] := by
    rw [windowStarts, dif_pos (by norm_num), windowStarts, dif_pos (by norm_num),
      windowStarts, dif_neg (by norm_num)]
  have hj : 0 < (windowStarts (6 - 4) (4 / 4) 0).length := by rw [hws]; norm_num
  have hseg : seg [1, -1, 1, -1, 1, -1] ((windowStarts (6 - 4) (4 / 4) 0).getD 0 0) 4
      = ([1, -1, 1, -1] : List ℝ) := by
    rw [hws]
    rfl
  have hxc : norm_xcorr
      (seg [1, -1, 1, -1, 1, -1] ((windowStarts (6 - 4) (4 / 4) 0).getD 0 0) 4)
      (seg [1, -1, 1, -1, 1, -1] ((windowStarts (6 - 4) (4 / 4) 0).getD 0 0) 4) 1
      = some 1 := by
    rw [hseg]
    exact norm_xcorr_self 1 (by norm_num) (by norm_num) (le_refl 1) (by norm_num)
  obtain ⟨hC, hL⟩ := claim_C7 [1, -1, 1, -1, 1, -1] [1, -1, 1, -1, 1, -1]
    [1, -1, 1, -1, 1, -1] 6 4 1 0 1 1 hj hxc hxc
  exact ⟨hj, hxc, hC, hL⟩

/-! ### Claim C8 -/

/-- Claim C8: the maximum lag used for windowed cross-correlation is the
maximum inter-neighbor distance divided by the assumed minimum wave velocity,
converted to a whole number of samples via the sampling interval:
`i_max = int((max_dist / v_min) / delta)`, with `max_dist` the maximum
distance in kilometers and `v_min = 3.5` km/s. -/
theorem claim_C8 (dmax_m delta : ℝ) :
    i_max dmax_m delta = pyInt ((max_dist dmax_m / v_min) / delta) ∧
    max_dist dmax_m = dmax_m / 1000 ∧ v_min = 35 / 10 :=
  ⟨rfl, rfl, by norm_num [v_min]⟩

/-! ### Claim C9 -/

/-- Claim C9: every backazimuth produced by the `% 360` reduction lies in the
half-open interval `[0, 360)`. -/
theorem claim_C9 (col : List ℝ) (b : ℝ) (hb : b ∈ backazimuths col) :
    0 ≤ b ∧ b < 360 := by
  rw [backazimuths] at hb
  obtain ⟨x, _, rfl⟩ := List.mem_map.mp hb
  have h : pyMod x 360 = 360 * Int.fract (x / 360) := by
    rw [pyMod, Int.fract]
    ring
  constructor
  · rw [h]
    exact mul_nonneg (by norm_num) (Int.fract_nonneg _)
  · rw [h]
    nlinarith [Int.fract_lt_one (x / 360)]

/-- Claim C9 witness: the reduced backazimuth of raw value `-45` is in
`[0, 360)`. -/
theorem claim_C9_witness :
    pyMod (-45) 360 ∈ backazimuths [-45] ∧
    0 ≤ pyMod (-45) 360 ∧ pyMod (-45) 360 < 360 := by
  have hmem : pyMod (-45) 360 ∈ backazimuths [-45] := by
    rw [backazimuths]
    simp
  exact ⟨hmem, claim_C9 [-45] _ hmem⟩
